import Mathlib

/-!
Verification development for the DynamicProcessPool repository
(src/DynamicProcessPool.h — fire-and-forget variant; src/tmp.h — future
variant).

The development has two layers.

1. Per-worker functional models.  The body of `workthread` (and of the
   lambda created by `addWorkerWithWork`) is a sequential loop whose
   behaviour is determined by what it observes from the shared state at
   each loop iteration: the value of the `quit` flag read by the while
   condition, and whether the critical section popped an item or woke to a
   still-empty queue.  We model one worker as a function of that
   observation sequence, recording the handler invocations it performs
   (and, in the future variant, the promise fulfilments via `doWork`).

2. A global interleaving model.  A pool state carries the three atomic
   counters (`nWorker`, `nWaiting`, `nWorking`, as in the source), the
   FIFO `qWork`, the `quit` flag, and one program counter per worker
   thread; each atomic operation of the source (one atomic fetch_add /
   fetch_sub, one mutex-protected critical section, one enqueue, one
   observation of `nWorker == 0` by `kill`'s spin wait) is one transition.
   An event log records pushes, pops, handler invocations and the return
   of `kill`, so ordering claims become statements about reachable logs.
-/

/-- The condition of the `if` at the head of `enqueue`
(src/DynamicProcessPool.h line 57, src/tmp.h line 71):
`maxWorker < nWorker.load() && nWaiting.load() == 0`.
When it holds, `addWorkerWithWork( 10, workItem )` is called; otherwise the
item is pushed onto `qWork`. -/
def enqueueSpawnsOverflow (maxWorker nWorker nWaiting : Int) : Bool :=
  decide (maxWorker < nWorker) && decide (nWaiting = 0)

/-- Modelled from the spec: the overflow trigger as the specification words
it ("If the pool is at or below its configured worker ceiling and no worker
is currently idle, spawn a dedicated overflow worker").  Stated only for
comparison with `enqueueSpawnsOverflow`, the condition the source tests. -/
def specOverflowCond (maxWorker nWorker nWaiting : Int) : Bool :=
  decide (nWorker ≤ maxWorker) && decide (nWaiting = 0)

/-- What one iteration of the `workthread` loop observes from the critical
section: either the worker woke from `signal.wait` and found `qWork` still
empty (the `continue` branch of the double check), or an item was popped
(directly, or after a wake that found the queue non-empty). -/
inductive WObs (T : Type)
  | wakeEmpty : WObs T
  | item (x : T) : WObs T
deriving DecidableEq

/-- One arrival at the `while( !quit && lifeCount > 0 )` loop head:
the value of `quit` read there, and what the following critical section
yields if the loop body runs. -/
structure WIter (T : Type) where
  quit : Bool
  obs : WObs T
deriving DecidableEq

/-- Result of running a worker of the fire-and-forget variant:
remaining `lifeCount`, the items passed to `handler` in order, and whether
the loop exited (after which the source decrements `nWorker` and the
thread terminates). -/
structure RunA (T : Type) where
  life : Nat
  invoked : List T
  finished : Bool
deriving DecidableEq

/-- `workthread` of src/DynamicProcessPool.h (lines 118-151), as a function
of the worker's observation sequence.  Each list element is one arrival at
the loop head; an empty list means the modelled execution stops with the
worker still inside the loop (e.g. blocked in `signal.wait`).
`lifeCount --` runs only after a handler invocation; the
`if( qWork.empty() ) continue;` double-check branch consumes no life. -/
def workthreadA {T : Type} : Nat → List (WIter T) → RunA T
  | life, [] => ⟨life, [], false⟩
  | life, it :: rest =>
    if it.quit ∨ life = 0 then ⟨life, [], true⟩
    else
      match it.obs with
      | .wakeEmpty => workthreadA life rest
      | .item x =>
        let r := workthreadA (life - 1) rest
        ⟨r.life, x :: r.invoked, r.finished⟩

/-- The lambda created by `addWorkerWithWork` of src/DynamicProcessPool.h
(lines 176-185): it first calls `handler( workItem )` on the submitted item
(its boolean result stored in a dead local), then runs
`workthread( lifeCount )`. -/
def addWorkerWithWorkA {T : Type} (workItem : T) (lifeCount : Nat)
    (iters : List (WIter T)) : RunA T :=
  let r := workthreadA lifeCount iters
  ⟨r.life, workItem :: r.invoked, r.finished⟩

/-- Program counter of one worker thread of the fire-and-forget variant,
at the granularity of the source's atomic operations.  `entry` is the top
of `workthread`, before `nWorker.fetch_add( 1 )`; `ovfStart` is the top of
the lambda created by `addWorkerWithWork`, before its immediate
`handler( workItem )` call (note that this precedes the `nWorker`
increment); `loopHead` is the `while( !quit && lifeCount > 0 )` test;
`critTry` is the mutex-protected region from acquiring `queueMutex` to
either blocking in `signal.wait` or popping; `blocked` is inside
`signal.wait`; `awake` is the region from returning out of `signal.wait`
to the double check and possible pop; `preWork` is just before
`nWorking.fetch_add(1)`; `working` is the `handler( workItem )` call;
`postWork` is `nWorking.fetch_sub(1)` and `lifeCount --`; `done` is after
`nWorker.fetch_sub( 1 )`. -/
inductive WPc (T : Type)
  | entry : WPc T
  | ovfStart (x : T) : WPc T
  | loopHead : WPc T
  | critTry : WPc T
  | blocked : WPc T
  | awake : WPc T
  | preWork (x : T) : WPc T
  | working (x : T) : WPc T
  | postWork : WPc T
  | done : WPc T
deriving DecidableEq

/-- One worker thread: its program counter and its local `lifeCount`. -/
structure Worker (T : Type) where
  pc : WPc T
  life : Nat
deriving DecidableEq

/-- Observable events, recorded in chronological order: an item pushed
onto `qWork` by `enqueue`, an item popped from `qWork` by a worker, a
handler invocation, and the return of `kill` (the spin wait observing
`nWorker == 0`). -/
inductive PEvent (T : Type)
  | push (x : T) : PEvent T
  | popE (x : T) : PEvent T
  | invoke (x : T) : PEvent T
  | killRet : PEvent T
deriving DecidableEq

/-- Construction configuration of `DynamicProcessPool`
(src/DynamicProcessPool.h lines 28-37). -/
structure PoolCfg (T : Type) where
  initialWorkers : Nat
  maxWorker : Int
  lifeTime : Nat
  handler : T → Bool

/-- Global pool state: the three atomic counters, the worker threads, the
work queue, the `quit` flag, whether `kill` has returned, and the event
log. -/
structure PoolState (T : Type) where
  nWorker : Int
  nWaiting : Int
  nWorking : Int
  workers : List (Worker T)
  qWork : List T
  quit : Bool
  killReturned : Bool
  log : List (PEvent T)

/-- Pool state right after the constructor: counters zero (each worker
thread increments `nWorker` itself once it starts running), one thread per
initial worker at the top of `workthread` with life budget `lifeTime`. -/
def initState {T : Type} (c : PoolCfg T) : PoolState T :=
  { nWorker := 0, nWaiting := 0, nWorking := 0,
    workers := List.replicate c.initialWorkers ⟨.entry, c.lifeTime⟩,
    qWork := [], quit := false, killReturned := false, log := [] }

/-- One atomic step of worker `i` (currently in state `w`), other than the
wakeup out of `signal.wait`, which needs an external cause and is the
separate action `wake`.  Returns `none` when the worker has no such step
(it is blocked, or it has terminated). -/
def workerStep {T : Type} (c : PoolCfg T) (s : PoolState T) (i : Nat)
    (w : Worker T) : Option (PoolState T) :=
  match w.pc with
  | .entry =>
    some { s with nWorker := s.nWorker + 1,
                  workers := s.workers.set i { w with pc := .loopHead } }
  | .ovfStart x =>
    let _result := c.handler x
    some { s with log := s.log ++ [.invoke x],
                  workers := s.workers.set i { w with pc := .entry } }
  | .loopHead =>
    if s.quit ∨ w.life = 0 then
      some { s with nWorker := s.nWorker - 1,
                    workers := s.workers.set i { w with pc := .done } }
    else
      some { s with workers := s.workers.set i { w with pc := .critTry } }
  | .critTry =>
    match s.qWork with
    | [] =>
      some { s with nWaiting := s.nWaiting + 1,
                    workers := s.workers.set i { w with pc := .blocked } }
    | x :: rest =>
      some { s with qWork := rest, log := s.log ++ [.popE x],
                    workers := s.workers.set i { w with pc := .preWork x } }
  | .blocked => none
  | .awake =>
    match s.qWork with
    | [] =>
      some { s with nWaiting := s.nWaiting - 1,
                    workers := s.workers.set i { w with pc := .loopHead } }
    | x :: rest =>
      some { s with nWaiting := s.nWaiting - 1, qWork := rest,
                    log := s.log ++ [.popE x],
                    workers := s.workers.set i { w with pc := .preWork x } }
  | .preWork x =>
    some { s with nWorking := s.nWorking + 1,
                  workers := s.workers.set i { w with pc := .working x } }
  | .working x =>
    let _result := c.handler x
    some { s with log := s.log ++ [.invoke x],
                  workers := s.workers.set i { w with pc := .postWork } }
  | .postWork =>
    some { s with nWorking := s.nWorking - 1,
                  workers := s.workers.set i
                    { pc := .loopHead, life := w.life - 1 } }
  | .done => none

/-- Interleaved actions: an `enqueue` call, one atomic step of worker `i`,
a wakeup of worker `i` out of `signal.wait` (by `notify_one` from
`enqueue`, `notify_all` from `postQuitWorkers`, or a spurious wakeup —
C++ condition variables permit the latter, which is why the source has its
double check), the `quit = true` of `postQuitWorkers`, and the return of
`kill` once its spin wait observes `nWorker == 0`. -/
inductive PAct (T : Type)
  | enqueue (x : T) : PAct T
  | wstep (i : Nat) : PAct T
  | wake (i : Nat) : PAct T
  | setQuit : PAct T
  | killRet : PAct T

/-- One interleaved step of the whole system.  `enqueue`
(src/DynamicProcessPool.h lines 54-69) either calls
`addWorkerWithWork( 10, workItem )` — creating a thread at `ovfStart` with
life budget 10 — or pushes the item onto `qWork`.  `killRet` is enabled
once `quit` is set and the spin wait of `kill` (lines 101-109) observes
`nWorker == 0`. -/
def stepA {T : Type} (c : PoolCfg T) (a : PAct T) (s : PoolState T) :
    Option (PoolState T) :=
  match a with
  | .enqueue x =>
    if enqueueSpawnsOverflow c.maxWorker s.nWorker s.nWaiting then
      some { s with workers := s.workers ++ [⟨.ovfStart x, 10⟩] }
    else
      some { s with qWork := s.qWork ++ [x], log := s.log ++ [.push x] }
  | .wstep i =>
    match s.workers[i]? with
    | some w => workerStep c s i w
    | none => none
  | .wake i =>
    match s.workers[i]? with
    | some w =>
      match w.pc with
      | .blocked => some { s with workers := s.workers.set i { w with pc := .awake } }
      | _ => none
    | none => none
  | .setQuit => some { s with quit := true }
  | .killRet =>
    if s.quit ∧ s.nWorker = 0 then
      some { s with killReturned := true, log := s.log ++ [.killRet] }
    else none

/-- Run a list of actions from a given state; the head of the list is the
most recent action. -/
def runFrom {T : Type} (c : PoolCfg T) (s : PoolState T) :
    List (PAct T) → Option (PoolState T)
  | [] => some s
  | a :: rest => (runFrom c s rest).bind (stepA c a)

/-- Run a list of actions from the freshly constructed pool. -/
def runActs {T : Type} (c : PoolCfg T) (acts : List (PAct T)) :
    Option (PoolState T) :=
  runFrom c (initState c) acts

/-- A state the pool can be in: reachable from construction by some
interleaving of submitter, worker and shutdown steps. -/
def PoolReachable {T : Type} (c : PoolCfg T) (s : PoolState T) : Prop :=
  ∃ acts, runActs c acts = some s

/-- `queryPoolStatus` (src/DynamicProcessPool.h lines 79-84, src/tmp.h
lines 95-100).  Each pointer argument is modelled as `none` for `nullptr`
or `some v` for a pointer to a cell holding `v`; the result is the pool
state after the call together with the two cells after the call. -/
def queryPoolStatus {T : Type} (s : PoolState T)
    (waiting working : Option Int) : PoolState T × Option Int × Option Int :=
  ( s,
    match waiting with
    | some _ => some s.nWaiting
    | none => none,
    match working with
    | some _ => some s.nWorking
    | none => none )

/-- `workPair_t` of src/tmp.h (lines 21-24): a submitted item together with
the identity of the `std::promise` allocated for it at submission time. -/
structure WorkPair (A : Type) where
  pid : Nat
  item : A
deriving DecidableEq

/-- What one loop iteration of the future variant's `workthread` observes. -/
inductive WObsB (A : Type)
  | wakeEmpty : WObsB A
  | pair (wp : WorkPair A) : WObsB A
deriving DecidableEq

/-- One arrival at the loop head of the future variant's `workthread`. -/
structure WIterB (A : Type) where
  quit : Bool
  obs : WObsB A
deriving DecidableEq

/-- `doWork` of src/tmp.h (lines 129-133):
`workPair.result->set_value( handler( workPair.item ) )` — the fulfilment
of promise `wp.pid` with the handler's return value. -/
def doWork {A B : Type} (handler : A → B) (wp : WorkPair A) : Nat × B :=
  (wp.pid, handler wp.item)

/-- Result of running a worker of the future variant: remaining life, the
items passed to `handler` in order, the promise fulfilments performed
(promise identity paired with the delivered value), and whether the loop
exited. -/
structure RunB (A B : Type) where
  life : Nat
  invoked : List A
  fulfilled : List (Nat × B)
  finished : Bool
deriving DecidableEq

/-- `workthread` of src/tmp.h (lines 140-171), as a function of the
observation sequence.  Each popped pair is handed to `doWork`, which
invokes the handler and fulfils the pair's promise with the result. -/
def workthreadB {A B : Type} (handler : A → B) :
    Nat → List (WIterB A) → RunB A B
  | life, [] => ⟨life, [], [], false⟩
  | life, it :: rest =>
    if it.quit ∨ life = 0 then ⟨life, [], [], true⟩
    else
      match it.obs with
      | .wakeEmpty => workthreadB handler life rest
      | .pair wp =>
        let r := workthreadB handler (life - 1) rest
        ⟨r.life, wp.item :: r.invoked,
          doWork handler wp :: r.fulfilled, r.finished⟩

/-- The lambda created by `addWorkerWithWork` of src/tmp.h (lines 196-205):
it calls `handler( workPair.item )` — discarding the result and performing
no `set_value` on `workPair.result` — and then runs
`workthread( lifeCount )`. -/
def addWorkerWithWorkB {A B : Type} (handler : A → B) (lifeCount : Nat)
    (workPair : WorkPair A) (iters : List (WIterB A)) : RunB A B :=
  let r := workthreadB handler lifeCount iters
  ⟨r.life, workPair.item :: r.invoked, r.fulfilled, r.finished⟩

/-- Contribution of a worker at a given program counter to `nWorker`:
1 between `nWorker.fetch_add( 1 )` and `nWorker.fetch_sub( 1 )`, 0
outside (in particular 0 while the overflow lambda runs its immediate
handler call, which precedes the increment). -/
def tContrib {T : Type} : WPc T → Int
  | .entry => 0
  | .ovfStart _ => 0
  | .done => 0
  | _ => 1

/-- Contribution to `nWaiting`: 1 between `nWaiting.fetch_add(1)` and
`nWaiting.fetch_sub(1)`, i.e. while blocked in `signal.wait` or woken but
not yet past the double check. -/
def waitContrib {T : Type} : WPc T → Int
  | .blocked => 1
  | .awake => 1
  | _ => 0

/-- Contribution to `nWorking`: 1 between `nWorking.fetch_add(1)` and
`nWorking.fetch_sub(1)`, i.e. during the handler call of the worker loop. -/
def workContrib {T : Type} : WPc T → Int
  | .working _ => 1
  | .postWork => 1
  | _ => 0

/-- Sum of a per-program-counter quantity over a worker list. -/
def csum {T : Type} (f : WPc T → Int) (l : List (Worker T)) : Int :=
  (l.map fun w => f w.pc).sum

/-- The items of the `push` events of a log, in order. -/
def pushItems {T : Type} (l : List (PEvent T)) : List T :=
  l.filterMap fun e =>
    match e with
    | .push x => some x
    | _ => none

/-- The items of the `popE` events of a log, in order. -/
def popItems {T : Type} (l : List (PEvent T)) : List T :=
  l.filterMap fun e =>
    match e with
    | .popE x => some x
    | _ => none

/-- The items of the `invoke` events of a log, in order. -/
def invokeItems {T : Type} (l : List (PEvent T)) : List T :=
  l.filterMap fun e =>
    match e with
    | .invoke x => some x
    | _ => none

/-- `isSubseq xs ys` decides whether `xs` is an order-preserving
subsequence of `ys`. -/
def isSubseq {T : Type} [DecidableEq T] : List T → List T → Bool
  | [], _ => true
  | _ :: _, [] => false
  | a :: xs, b :: ys =>
    if a = b then isSubseq xs ys else isSubseq (a :: xs) ys

/-- The FIFO-execution-order property claimed of the pool: the handler
invocations of items that went through the FIFO (i.e. were pushed), taken
in execution order, form a subsequence of the submission order. -/
def fifoExecOk {T : Type} [DecidableEq T] (s : PoolState T) : Bool :=
  isSubseq
    ((invokeItems s.log).filter fun x => decide (x ∈ pushItems s.log))
    (pushItems s.log)

/-- The three atomic counters agree with the per-worker contributions. -/
def CounterInv {T : Type} (s : PoolState T) : Prop :=
  s.nWorker = csum tContrib s.workers ∧
  s.nWaiting = csum waitContrib s.workers ∧
  s.nWorking = csum workContrib s.workers

/-- The pushed items are exactly the popped items followed by the items
still queued, in order: `qWork` is a FIFO. -/
def QueueInv {T : Type} (s : PoolState T) : Prop :=
  pushItems s.log = popItems s.log ++ s.qWork

/-- The inductive invariant of the pool model. -/
def PoolInv {T : Type} (s : PoolState T) : Prop :=
  CounterInv s ∧ QueueInv s

/-- Run a chronologically ordered list of actions from the freshly
constructed pool. -/
def execTrace {T : Type} (c : PoolCfg T) (chron : List (PAct T)) :
    Option (PoolState T) :=
  runActs c chron.reverse

/-- Configuration exhibiting a handler invocation after `kill` returns:
one initial worker, `maxWorker = 0` (so the first submission takes the
overflow path), life budget 5. -/
def cfgC3 : PoolCfg Nat := ⟨1, 0, 5, fun _ => true⟩

/-- Chronological schedule: the initial worker registers; `enqueue 7`
takes the overflow path and creates a second thread; `kill` sets `quit`;
the initial worker observes `quit` and exits; the spin wait observes
`nWorker == 0` and `kill` returns; only then is the overflow thread
scheduled, and it invokes the handler. -/
def traceC3 : List (PAct Nat) :=
  [.wstep 0, .enqueue 7, .setQuit, .wstep 0, .killRet, .wstep 1]

/-- The state reached by `traceC3`. -/
def sC3 : PoolState Nat :=
  { nWorker := 0, nWaiting := 0, nWorking := 0,
    workers := [⟨.done, 5⟩, ⟨.entry, 10⟩],
    qWork := [], quit := true, killReturned := true,
    log := [.killRet, .invoke 7] }

/-- Configuration exhibiting the stall after all workers retire: one
initial worker with life budget 1, `maxWorker = 4`. -/
def cfgC4 : PoolCfg Nat := ⟨1, 4, 1, fun _ => true⟩

/-- Chronological schedule: the sole worker executes item 5, exhausts its
life budget and retires (`nWorker == 0`); then `enqueue 9` runs with no
live worker and the pool not shutting down. -/
def traceC4 : List (PAct Nat) :=
  [.wstep 0, .enqueue 5, .wstep 0, .wstep 0, .wstep 0, .wstep 0,
   .wstep 0, .wstep 0, .enqueue 9]

/-- The state reached by `traceC4`: item 9 sits in the FIFO, the retired
worker is the only thread that ever existed, and no fresh worker was
created. -/
def sC4 : PoolState Nat :=
  { nWorker := 0, nWaiting := 0, nWorking := 0,
    workers := [⟨.done, 0⟩],
    qWork := [9], quit := false, killReturned := false,
    log := [.push 5, .popE 5, .invoke 5, .push 9] }

/-- Configuration exhibiting out-of-submission-order execution of two
FIFO items: two initial workers, `maxWorker = 4`, life budget 3. -/
def cfgC7 : PoolCfg Nat := ⟨2, 4, 3, fun _ => true⟩

/-- Chronological schedule: items 10 then 20 are pushed onto the FIFO;
worker 0 pops 10, worker 1 pops 20; worker 1 then runs its handler call
before worker 0 does. -/
def traceC7 : List (PAct Nat) :=
  [.wstep 0, .wstep 1, .enqueue 10, .enqueue 20,
   .wstep 0, .wstep 0, .wstep 1, .wstep 1,
   .wstep 1, .wstep 1, .wstep 0, .wstep 0]

/-- The state reached by `traceC7`: both items were popped in submission
order, but the invocation of 20 precedes the invocation of 10. -/
def sC7 : PoolState Nat :=
  { nWorker := 2, nWaiting := 0, nWorking := 2,
    workers := [⟨.postWork, 3⟩, ⟨.postWork, 3⟩],
    qWork := [], quit := false, killReturned := false,
    log := [.push 10, .push 20, .popE 10, .popE 20,
            .invoke 20, .invoke 10] }

/-- Observation sequence of an uninterrupted overflow worker loop with
life budget 10: ten popped items, then one further loop-head arrival at
which the exhausted life budget ends the loop. -/
def itersC5 : List (WIter Nat) :=
  List.replicate 10 ⟨false, .item 1⟩ ++ [⟨false, .wakeEmpty⟩]

/-- Observation sequence for the life-budget witness: two popped items and
a final loop-head arrival, with `quit` never observed true. -/
def witItersC5 : List (WIter Nat) :=
  [⟨false, .item 1⟩, ⟨false, .item 2⟩, ⟨false, .wakeEmpty⟩]

/-! ## Helper lemmas -/

theorem csum_nil {T : Type} (f : WPc T → Int) : csum f [] = 0 := rfl

theorem csum_cons {T : Type} (f : WPc T → Int) (w : Worker T)
    (l : List (Worker T)) : csum f (w :: l) = f w.pc + csum f l := by
  simp [csum]

theorem csum_append_one {T : Type} (f : WPc T → Int) (l : List (Worker T))
    (w : Worker T) : csum f (l ++ [w]) = csum f l + f w.pc := by
  simp [csum]

theorem csum_set {T : Type} (f : WPc T → Int) (l : List (Worker T)) (i : Nat)
    (w' w : Worker T) (h : l[i]? = some w) :
    csum f (l.set i w') = csum f l - f w.pc + f w'.pc := by
  induction l generalizing i with
  | nil => simp at h
  | cons a t ih =>
    cases i with
    | zero =>
      simp only [List.getElem?_cons_zero, Option.some.injEq] at h
      subst h
      simp only [List.set_cons_zero, csum_cons]
      ring
    | succ n =>
      simp only [List.getElem?_cons_succ] at h
      simp only [List.set_cons_succ, csum_cons, ih n h]
      ring

theorem csum_replicate_zero {T : Type} (f : WPc T → Int) (n : Nat)
    (w : Worker T) (h : f w.pc = 0) :
    csum f (List.replicate n w) = 0 := by
  induction n with
  | zero => rfl
  | succ n ih => simp [List.replicate_succ, csum_cons, h, ih]

theorem csum_pair_le {T : Type} (f g k : WPc T → Int) (l : List (Worker T))
    (hp : ∀ pc : WPc T, f pc + g pc ≤ k pc) :
    csum f l + csum g l ≤ csum k l := by
  induction l with
  | nil => simp [csum_nil]
  | cons a t ih =>
    have ha := hp a.pc
    simp only [csum_cons]
    omega

theorem waitWork_le_total {T : Type} :
    ∀ pc : WPc T, waitContrib pc + workContrib pc ≤ tContrib pc := by
  intro pc
  cases pc <;> simp [waitContrib, workContrib, tContrib]

theorem pushItems_append {T : Type} (l l' : List (PEvent T)) :
    pushItems (l ++ l') = pushItems l ++ pushItems l' := by
  simp [pushItems]

theorem popItems_append {T : Type} (l l' : List (PEvent T)) :
    popItems (l ++ l') = popItems l ++ popItems l' := by
  simp [popItems]

theorem pushItems_push {T : Type} (x : T) :
    pushItems [PEvent.push x] = [x] := rfl

theorem pushItems_popE {T : Type} (x : T) :
    pushItems [PEvent.popE x] = [] := rfl

theorem pushItems_invoke {T : Type} (x : T) :
    pushItems [PEvent.invoke x] = [] := rfl

theorem pushItems_killRet {T : Type} :
    pushItems [PEvent.killRet (T := T)] = [] := rfl

theorem popItems_push {T : Type} (x : T) :
    popItems [PEvent.push x] = [] := rfl

theorem popItems_popE {T : Type} (x : T) :
    popItems [PEvent.popE x] = [x] := rfl

theorem popItems_invoke {T : Type} (x : T) :
    popItems [PEvent.invoke x] = [] := rfl

theorem popItems_killRet {T : Type} :
    popItems [PEvent.killRet (T := T)] = [] := rfl

theorem workerStep_inv {T : Type} (c : PoolCfg T) (s s' : PoolState T)
    (i : Nat) (pc : WPc T) (life : Nat)
    (hw : s.workers[i]? = some ⟨pc, life⟩)
    (h : workerStep c s i ⟨pc, life⟩ = some s')
    (hs : PoolInv s) : PoolInv s' := by
  obtain ⟨⟨h1, h2, h3⟩, h4⟩ := hs
  cases pc with
  | entry =>
    simp only [workerStep] at h
    injection h with h
    subst h
    refine ⟨⟨?_, ?_, ?_⟩, h4⟩ <;>
      simp only [csum_set _ _ _ _ _ hw, tContrib, waitContrib, workContrib] <;>
      omega
  | ovfStart x =>
    simp only [workerStep] at h
    injection h with h
    subst h
    refine ⟨⟨?_, ?_, ?_⟩, ?_⟩
    · simp only [csum_set _ _ _ _ _ hw, tContrib]; omega
    · simp only [csum_set _ _ _ _ _ hw, waitContrib]; omega
    · simp only [csum_set _ _ _ _ _ hw, workContrib]; omega
    · show pushItems (s.log ++ [.invoke x]) = popItems (s.log ++ [.invoke x]) ++ s.qWork
      simp only [pushItems_append, popItems_append, pushItems_invoke,
        popItems_invoke, List.append_nil]
      exact h4
  | loopHead =>
    simp only [workerStep] at h
    split at h <;> (injection h with h; subst h) <;>
      refine ⟨⟨?_, ?_, ?_⟩, h4⟩ <;>
        simp only [csum_set _ _ _ _ _ hw, tContrib, waitContrib, workContrib] <;>
        omega
  | critTry =>
    simp only [workerStep] at h
    cases hq : s.qWork with
    | nil =>
      simp only [hq] at h
      injection h with h
      subst h
      refine ⟨⟨?_, ?_, ?_⟩, ?_⟩
      · simp only [csum_set _ _ _ _ _ hw, tContrib]; omega
      · simp only [csum_set _ _ _ _ _ hw, waitContrib]; omega
      · simp only [csum_set _ _ _ _ _ hw, workContrib]; omega
      · have h4q : pushItems s.log = popItems s.log ++ s.qWork := h4
        rw [hq] at h4q
        exact h4q
    | cons x rest =>
      simp only [hq] at h
      injection h with h
      subst h
      refine ⟨⟨?_, ?_, ?_⟩, ?_⟩
      · simp only [csum_set _ _ _ _ _ hw, tContrib]; omega
      · simp only [csum_set _ _ _ _ _ hw, waitContrib]; omega
      · simp only [csum_set _ _ _ _ _ hw, workContrib]; omega
      · show pushItems (s.log ++ [.popE x]) = popItems (s.log ++ [.popE x]) ++ rest
        simp only [pushItems_append, popItems_append, pushItems_popE,
          popItems_popE, List.append_nil]
        rw [h4, hq]
        simp
  | blocked => cases h
  | awake =>
    simp only [workerStep] at h
    cases hq : s.qWork with
    | nil =>
      simp only [hq] at h
      injection h with h
      subst h
      refine ⟨⟨?_, ?_, ?_⟩, ?_⟩
      · simp only [csum_set _ _ _ _ _ hw, tContrib]; omega
      · simp only [csum_set _ _ _ _ _ hw, waitContrib]; omega
      · simp only [csum_set _ _ _ _ _ hw, workContrib]; omega
      · have h4q : pushItems s.log = popItems s.log ++ s.qWork := h4
        rw [hq] at h4q
        exact h4q
    | cons x rest =>
      simp only [hq] at h
      injection h with h
      subst h
      refine ⟨⟨?_, ?_, ?_⟩, ?_⟩
      · simp only [csum_set _ _ _ _ _ hw, tContrib]; omega
      · simp only [csum_set _ _ _ _ _ hw, waitContrib]; omega
      · simp only [csum_set _ _ _ _ _ hw, workContrib]; omega
      · show pushItems (s.log ++ [.popE x]) = popItems (s.log ++ [.popE x]) ++ rest
        simp only [pushItems_append, popItems_append, pushItems_popE,
          popItems_popE, List.append_nil]
        rw [h4, hq]
        simp
  | preWork x =>
    simp only [workerStep] at h
    injection h with h
    subst h
    refine ⟨⟨?_, ?_, ?_⟩, h4⟩ <;>
      simp only [csum_set _ _ _ _ _ hw, tContrib, waitContrib, workContrib] <;>
      omega
  | working x =>
    simp only [workerStep] at h
    injection h with h
    subst h
    refine ⟨⟨?_, ?_, ?_⟩, ?_⟩
    · simp only [csum_set _ _ _ _ _ hw, tContrib]; omega
    · simp only [csum_set _ _ _ _ _ hw, waitContrib]; omega
    · simp only [csum_set _ _ _ _ _ hw, workContrib]; omega
    · show pushItems (s.log ++ [.invoke x]) = popItems (s.log ++ [.invoke x]) ++ s.qWork
      simp only [pushItems_append, popItems_append, pushItems_invoke,
        popItems_invoke, List.append_nil]
      exact h4
  | postWork =>
    simp only [workerStep] at h
    injection h with h
    subst h
    refine ⟨⟨?_, ?_, ?_⟩, h4⟩ <;>
      simp only [csum_set _ _ _ _ _ hw, tContrib, waitContrib, workContrib] <;>
      omega
  | done => cases h

theorem stepA_inv {T : Type} (c : PoolCfg T) (a : PAct T) (s s' : PoolState T)
    (h : stepA c a s = some s') (hs : PoolInv s) : PoolInv s' := by
  obtain ⟨⟨h1, h2, h3⟩, h4⟩ := hs
  cases a with
  | enqueue x =>
    simp only [stepA] at h
    split at h
    · injection h with h
      subst h
      refine ⟨⟨?_, ?_, ?_⟩, h4⟩ <;>
        simp only [csum_append_one, tContrib, waitContrib, workContrib] <;>
        omega
    · injection h with h
      subst h
      refine ⟨⟨h1, h2, h3⟩, ?_⟩
      show pushItems (s.log ++ [.push x]) = popItems (s.log ++ [.push x]) ++ (s.qWork ++ [x])
      simp only [pushItems_append, popItems_append, pushItems_push,
        popItems_push, List.append_nil]
      rw [h4]
      simp
  | wstep i =>
    simp only [stepA] at h
    cases hw : s.workers[i]? with
    | none => simp [hw] at h
    | some w =>
      simp only [hw] at h
      obtain ⟨pc, life⟩ := w
      exact workerStep_inv c s s' i pc life hw h ⟨⟨h1, h2, h3⟩, h4⟩
  | wake i =>
    simp only [stepA] at h
    cases hw : s.workers[i]? with
    | none => simp [hw] at h
    | some w =>
      simp only [hw] at h
      obtain ⟨pc, life⟩ := w
      cases pc with
      | blocked =>
        injection h with h
        subst h
        refine ⟨⟨?_, ?_, ?_⟩, h4⟩ <;>
          simp only [csum_set _ _ _ _ _ hw, tContrib, waitContrib, workContrib] <;>
          omega
      | entry => exact Option.noConfusion h
      | ovfStart x => exact Option.noConfusion h
      | loopHead => exact Option.noConfusion h
      | critTry => exact Option.noConfusion h
      | awake => exact Option.noConfusion h
      | preWork x => exact Option.noConfusion h
      | working x => exact Option.noConfusion h
      | postWork => exact Option.noConfusion h
      | done => exact Option.noConfusion h
  | setQuit =>
    simp only [stepA] at h
    injection h with h
    subst h
    exact ⟨⟨h1, h2, h3⟩, h4⟩
  | killRet =>
    simp only [stepA] at h
    split at h
    · injection h with h
      subst h
      refine ⟨⟨h1, h2, h3⟩, ?_⟩
      show pushItems (s.log ++ [.killRet]) = popItems (s.log ++ [.killRet]) ++ s.qWork
      simp only [pushItems_append, popItems_append, pushItems_killRet,
        popItems_killRet, List.append_nil]
      exact h4
    · cases h

theorem initState_inv {T : Type} (c : PoolCfg T) : PoolInv (initState c) := by
  refine ⟨⟨?_, ?_, ?_⟩, ?_⟩
  · exact (csum_replicate_zero tContrib c.initialWorkers ⟨.entry, c.lifeTime⟩ rfl).symm
  · exact (csum_replicate_zero waitContrib c.initialWorkers ⟨.entry, c.lifeTime⟩ rfl).symm
  · exact (csum_replicate_zero workContrib c.initialWorkers ⟨.entry, c.lifeTime⟩ rfl).symm
  · rfl

theorem runFrom_inv {T : Type} (c : PoolCfg T) :
    ∀ (acts : List (PAct T)) (s s' : PoolState T),
      PoolInv s → runFrom c s acts = some s' → PoolInv s' := by
  intro acts
  induction acts with
  | nil =>
    intro s s' hs h
    simp only [runFrom, Option.some.injEq] at h
    subst h
    exact hs
  | cons a rest ih =>
    intro s s' hs h
    simp only [runFrom] at h
    cases hmid : runFrom c s rest with
    | none => rw [hmid] at h; cases h
    | some mid =>
      rw [hmid] at h
      simp only [Option.some_bind] at h
      exact stepA_inv c a mid s' h (ih s mid hs hmid)

theorem reachable_inv {T : Type} (c : PoolCfg T) (s : PoolState T)
    (h : PoolReachable c s) : PoolInv s := by
  obtain ⟨acts, hacts⟩ := h
  exact runFrom_inv c acts (initState c) s (initState_inv c) hacts

/-! ## Per-claim theorems -/

/-- Claim C1 (code bug): the claim says an overflow worker is spawned
exactly when the total worker count is at or below `maxWorker` and no
worker is waiting.  The source tests the inverted comparison
`maxWorker < nWorker`: with `maxWorker = 4`, `nWorker = 2`, `nWaiting = 0`
the claim's condition holds but the code takes the FIFO branch, and with
`nWorker = 5` the claim's condition fails but the code spawns the overflow
worker. -/
theorem C1_overflow_condition_inverted :
    enqueueSpawnsOverflow 4 2 0 = false ∧ specOverflowCond 4 2 0 = true ∧
    enqueueSpawnsOverflow 4 5 0 = true ∧ specOverflowCond 4 5 0 = false := by
  decide

/-- Claim C2 (code bug): on the FIFO path the future variant fulfils the
promise of each executed pair exactly once with the handler's return value
(via `doWork`), but the overflow path (`addWorkerWithWork`'s lambda)
invokes the handler on the submitted item and never performs `set_value`:
for the pair with promise 0 and item 5, handler `Nat.succ`, the overflow
worker's fulfilment list is empty although the item was invoked, while a
FIFO worker fulfils promise 0 with value 6. -/
theorem C2_overflow_promise_never_fulfilled :
    (addWorkerWithWorkB Nat.succ 10 ⟨0, 5⟩ []).invoked = [5] ∧
    (addWorkerWithWorkB Nat.succ 10 ⟨0, 5⟩ []).fulfilled = [] ∧
    (workthreadB Nat.succ 1 [⟨false, .pair ⟨0, 5⟩⟩]).invoked = [5] ∧
    (workthreadB Nat.succ 1 [⟨false, .pair ⟨0, 5⟩⟩]).fulfilled = [(0, 6)] := by
  decide

/-- Claim C3 (code bug): a reachable execution in which `kill` returns
(the spin wait observes `nWorker == 0`) and a handler invocation happens
afterwards: the overflow worker spawned by `enqueue 7` runs its immediate
handler call before ever incrementing `nWorker` and without consulting
`quit`, so it is invisible to the spin wait.  The final log places
`killRet` strictly before `invoke 7`. -/
theorem C3_handler_invocation_after_kill :
    execTrace cfgC3 traceC3 = some sC3 ∧
    sC3.killReturned = true ∧
    sC3.log = [PEvent.killRet, PEvent.invoke 7] :=
  ⟨rfl, rfl, rfl⟩

/-- Claim C4 (code bug): a reachable execution in which every worker has
retired (`nWorker == 0`, the sole worker at `done`), the pool is not
shutting down, and a subsequent `enqueue 9` only appends the item to the
FIFO: because `enqueue` tests `maxWorker < nWorker` (false at 0), no fresh
worker is created, and only item 5 was ever executed. -/
theorem C4_no_fresh_worker_after_retirement :
    execTrace cfgC4 traceC4 = some sC4 ∧
    sC4.quit = false ∧ sC4.nWorker = 0 ∧
    sC4.workers = [⟨WPc.done, 0⟩] ∧ sC4.qWork = [9] ∧
    invokeItems sC4.log = [5] :=
  ⟨rfl, rfl, rfl, rfl, rfl, rfl⟩

/-- Claim C5, counterexample: an overflow worker created with the fixed
loop budget 10 and never interrupted by `quit` performs 11 handler
invocations — the immediate one plus ten loop iterations — not exactly 10
as the claim states. -/
theorem C5_counterexample :
    itersC5.all (fun it => !it.quit) = true ∧
    (addWorkerWithWorkA 9 10 itersC5).finished = true ∧
    (addWorkerWithWorkA 9 10 itersC5).invoked.length = 11 ∧
    (addWorkerWithWorkA 9 10 itersC5).invoked.length ≠ 10 := by
  decide

theorem workthreadA_quitfree_len {T : Type} :
    ∀ (iters : List (WIter T)) (L : Nat),
      (∀ it ∈ iters, it.quit = false) →
      (workthreadA L iters).finished = true →
      (workthreadA L iters).invoked.length = L := by
  intro iters
  induction iters with
  | nil =>
    intro L hq hf
    simp [workthreadA] at hf
  | cons it rest ih =>
    intro L hq hf
    have hqi : it.quit = false := hq it (by simp)
    by_cases hL : L = 0
    · subst hL
      simp [workthreadA, hqi]
    · cases ho : it.obs with
      | wakeEmpty =>
        simp only [workthreadA, hqi, hL, ho] at hf ⊢
        simp only [Bool.false_eq_true, false_or, if_neg hL] at hf ⊢
        exact ih L (fun j hj => hq j (List.mem_cons_of_mem _ hj)) hf
      | item x =>
        simp only [workthreadA, hqi, hL, ho] at hf ⊢
        simp only [Bool.false_eq_true, false_or, if_neg hL] at hf ⊢
        have := ih (L - 1) (fun j hj => hq j (List.mem_cons_of_mem _ hj)) hf
        show (workthreadA (L - 1) rest).invoked.length + 1 = L
        omega

/-- Claim C5, amended: a worker of the normal loop created with life
budget L whose loop exits without ever observing `quit` performs exactly L
handler invocations; an overflow worker (fixed loop budget 10) performs
its one immediate invocation plus the 10 of its loop, hence 11 in total
when uninterrupted. -/
theorem C5_life_budget :
    (∀ (T : Type) (L : Nat) (iters : List (WIter T)),
        (∀ it ∈ iters, it.quit = false) →
        (workthreadA L iters).finished = true →
        (workthreadA L iters).invoked.length = L) ∧
    (∀ (T : Type) (x : T) (iters : List (WIter T)),
        (∀ it ∈ iters, it.quit = false) →
        (workthreadA 10 iters).finished = true →
        (addWorkerWithWorkA x 10 iters).invoked.length = 11) := by
  refine ⟨fun T L iters hq hf => workthreadA_quitfree_len iters L hq hf, ?_⟩
  intro T x iters hq hf
  have h10 := workthreadA_quitfree_len iters 10 hq hf
  simp [addWorkerWithWorkA, h10]

/-- Claim C5, witness: the amended statement applied at life budget 2 and
a concrete quit-free observation sequence. -/
theorem C5_life_budget_witness :
    (∀ it ∈ witItersC5, it.quit = false) ∧
    (workthreadA 2 witItersC5).finished = true ∧
    (workthreadA 2 witItersC5).invoked.length = 2 :=
  ⟨by decide, by decide, C5_life_budget.1 Nat 2 witItersC5 (by decide) (by decide)⟩

/-- Claim C6: in every reachable state of the pool,
`nWaiting + nWorking ≤ nWorker`.  Each worker performs
`nWorker.fetch_add(1)` before it ever touches `nWaiting` or `nWorking`
and performs `nWorker.fetch_sub(1)` only after both contributions are
removed, so the per-worker contributions give the inequality pointwise. -/
theorem C6_counter_invariant {T : Type} (c : PoolCfg T) (s : PoolState T)
    (h : PoolReachable c s) : s.nWaiting + s.nWorking ≤ s.nWorker := by
  obtain ⟨⟨h1, h2, h3⟩, _⟩ := reachable_inv c s h
  rw [h1, h2, h3]
  exact csum_pair_le waitContrib workContrib tContrib s.workers waitWork_le_total

/-- Claim C6, witness: the invariant at the concrete reachable state
`sC7`. -/
theorem C6_counter_invariant_witness :
    sC7.nWaiting + sC7.nWorking ≤ sC7.nWorker :=
  C6_counter_invariant cfgC7 sC7 ⟨traceC7.reverse, rfl⟩

/-- Claim C7, counterexample: a reachable execution with two FIFO items
(10 submitted before 20, both pushed, both popped in order by two
different workers) in which the handler invocation of 20 happens before
the handler invocation of 10, so FIFO items are not executed in
submission order. -/
theorem C7_counterexample :
    execTrace cfgC7 traceC7 = some sC7 ∧ fifoExecOk sC7 = false :=
  ⟨rfl, rfl⟩

/-- Claim C7, amended: items appended to the FIFO are dequeued in their
order of submission relative to one another — in every reachable state the
pushed items are exactly the popped items (in pop order) followed by the
still-queued items — while handler executions of already-popped items may
interleave across workers. -/
theorem C7_fifo_dequeue_order {T : Type} (c : PoolCfg T) (s : PoolState T)
    (h : PoolReachable c s) : pushItems s.log = popItems s.log ++ s.qWork :=
  (reachable_inv c s h).2

/-- Claim C7, witness: the dequeue-order equation at the concrete
reachable state `sC7`. -/
theorem C7_fifo_dequeue_order_witness :
    pushItems sC7.log = popItems sC7.log ++ sC7.qWork :=
  C7_fifo_dequeue_order cfgC7 sC7 ⟨traceC7.reverse, rfl⟩

/-- Claim C8: a worker that wakes with the queue still empty takes the
`continue` branch: the run is exactly the run without that iteration — no
handler invocation, no life decrement — and in every run the life counter
decreases exactly by the number of handler invocations performed. -/
theorem C8_spurious_wake :
    (∀ (T : Type) (life : Nat) (rest : List (WIter T)), life ≠ 0 →
        workthreadA life (⟨false, .wakeEmpty⟩ :: rest) = workthreadA life rest) ∧
    (∀ (T : Type) (life : Nat) (iters : List (WIter T)),
        (workthreadA life iters).life + (workthreadA life iters).invoked.length
          = life) := by
  constructor
  · intro T life rest hl
    simp [workthreadA, hl]
  · intro T life iters
    induction iters generalizing life with
    | nil => simp [workthreadA]
    | cons it rest ih =>
      by_cases hq : it.quit
      · simp [workthreadA, hq]
      · by_cases hL : life = 0
        · simp [workthreadA, hq, hL]
        · cases ho : it.obs with
          | wakeEmpty =>
            simp only [workthreadA, hq, hL, ho]
            simp only [Bool.false_eq_true, false_or, if_neg hL]
            exact ih life
          | item x =>
            simp only [workthreadA, hq, hL, ho]
            simp only [Bool.false_eq_true, false_or, if_neg hL]
            have := ih (life - 1)
            show (workthreadA (life - 1) rest).life
                + ((workthreadA (life - 1) rest).invoked.length + 1) = life
            omega

/-- Claim C8, witness: a spurious wake at life budget 3 leaves the run
unchanged. -/
theorem C8_spurious_wake_witness :
    (3 : Nat) ≠ 0 ∧
    workthreadA 3 [(⟨false, .wakeEmpty⟩ : WIter Nat)] = workthreadA 3 [] :=
  ⟨by decide, C8_spurious_wake.1 Nat 3 [] (by decide)⟩

/-- Claim C9: `queryPoolStatus` returns the pool state unchanged; a null
first argument is never written, a null second argument is never written,
and a non-null first (second) argument receives exactly `nWaiting`
(`nWorking`). -/
theorem C9_query_frame {T : Type} (s : PoolState T)
    (waiting working : Option Int) :
    (queryPoolStatus s waiting working).1 = s ∧
    (queryPoolStatus s none working).2.1 = none ∧
    (queryPoolStatus s waiting none).2.2 = none ∧
    (∀ v : Int, (queryPoolStatus s (some v) working).2.1 = some s.nWaiting) ∧
    (∀ v : Int, (queryPoolStatus s waiting (some v)).2.2 = some s.nWorking) :=
  ⟨rfl, rfl, rfl, fun _ => rfl, fun _ => rfl⟩

theorem stepA_handler_irrel {T : Type} (c : PoolCfg T) (h1 h2 : T → Bool)
    (a : PAct T) (s : PoolState T) :
    stepA { c with handler := h1 } a s = stepA { c with handler := h2 } a s := rfl

theorem runFrom_handler_irrel {T : Type} (c : PoolCfg T) (h1 h2 : T → Bool) :
    ∀ (acts : List (PAct T)) (s : PoolState T),
      runFrom { c with handler := h1 } s acts
        = runFrom { c with handler := h2 } s acts := by
  intro acts
  induction acts with
  | nil => intro s; rfl
  | cons a rest ih =>
    intro s
    simp only [runFrom, ih s]
    cases runFrom { c with handler := h2 } s rest with
    | none => rfl
    | some mid =>
      simp only [Option.some_bind]
      exact stepA_handler_irrel c h1 h2 a mid

/-- Claim C10: the boolean returned by the handler is read into a dead
local and discarded, so two pools whose handlers differ only in their
returned boolean evolve identically under every action sequence. -/
theorem C10_handler_result_irrelevant {T : Type} (c : PoolCfg T)
    (h1 h2 : T → Bool) (acts : List (PAct T)) :
    runActs { c with handler := h1 } acts
      = runActs { c with handler := h2 } acts :=
  runFrom_handler_irrel c h1 h2 acts (initState { c with handler := h1 })
